import Mathlib

/-!
Shallow embedding of the Twitter content handler
(`packages/content-handler/src/websites/twitter-handler.ts`) and of the
subscription unsubscribe helpers, together with theorems checking the
specification's claims against this code.

External I/O (HTTP requests, the headless browser, the DOM, email
delivery) is made explicit: each network-touching function takes the
responses of the outside world as parameters and additionally returns
the list of outbound effects it performs, so that ordering and
which-endpoint-was-called properties can be stated.  JavaScript regular
expression matching is embedded as an explicit leftmost-match scanner;
for the concrete patterns used by this file the greedy/backtracking
semantics of the JS engine coincide with the committed-choice scanner
written here (each alternative is discriminated by its first character,
and every greedy repetition is followed by a character it can never
consume), which is argued at each definition.
-/

namespace Omnivore

/-! ## Data model (the TS interfaces of twitter-handler.ts) -/

/-- Embeds the `users` element type of interface `TweetIncludes`. -/
structure TweetUser where
  id : String
  name : String
  profile_image_url : String
  username : String
deriving DecidableEq, Repr

/-- Embeds the `media` element type of interface `TweetIncludes`. -/
structure TweetMedia where
  preview_image_url : String
  type : String
  url : String
  media_key : String
deriving DecidableEq, Repr

/-- Embeds interface `TweetIncludes`: `media` is optional in the TS type. -/
structure TweetIncludes where
  users : List TweetUser
  media : Option (List TweetMedia)
deriving DecidableEq, Repr

/-- Embeds the `entities.urls` element type of interface `TweetData`. -/
structure TweetUrlEntity where
  url : String
  expanded_url : String
  display_url : String
deriving DecidableEq, Repr

/-- Embeds the `entities` field type of interface `TweetData`. -/
structure TweetEntities where
  urls : List TweetUrlEntity
deriving DecidableEq, Repr

/-- Embeds the `referenced_tweets` element type of interface `TweetData`. -/
structure TweetRef where
  type : String
  id : String
deriving DecidableEq, Repr

/-- Embeds the optional `attachments` field type of interface `TweetData`. -/
structure TweetAttachments where
  media_keys : List String
deriving DecidableEq, Repr

/-- Embeds interface `TweetData`.  The wire objects produced by the
tweet endpoints carry an `id` field (it is what `getTweetIds` scrapes and
what the spec's Post model keys on); the TS interface declaration does
not list it but the claims about duplicate identifiers need it, so it is
included here. -/
structure TweetData where
  id : String
  author_id : String
  text : String
  entities : TweetEntities
  created_at : String
  referenced_tweets : List TweetRef
  conversation_id : String
  attachments : Option TweetAttachments
deriving DecidableEq, Repr

/-- Embeds interface `TweetMeta`. -/
structure TweetMeta where
  result_count : Nat
deriving DecidableEq, Repr

/-- Embeds interface `Tweet`. -/
structure Tweet where
  data : TweetData
  includes : TweetIncludes
deriving DecidableEq, Repr

/-- Embeds interface `Tweets` (a batch response). -/
structure Tweets where
  data : List TweetData
  includes : TweetIncludes
  meta : TweetMeta
deriving DecidableEq, Repr

/-- Embeds interface `EmbedTweet` (the oEmbed response). -/
structure EmbedTweet where
  author_name : String
  author_url : String
  cache_age : String
  height : Nat
  html : String
  provider_name : String
  provider_url : String
  type : String
  url : String
  version : String
  width : Nat
deriving DecidableEq, Repr

/-- Outbound effects a handler operation can perform.  Each constructor
stands for one concrete outbound request of twitter-handler.ts:
the recent-search GET of `getTweetThread`, the bulk-by-ids GET of
`getTweetsByIds`, the single-tweet GET of `getTweetById`, the oEmbed GET
of `getEmbedTweet`, and the headless-browser navigation of
`getTweetIds`. -/
inductive Effect where
  | recencySearch (conversationId : String)
  | tweetsByIdsFetch (ids : List String)
  | tweetByIdFetch (id : String)
  | oembedFetch (url : String)
  | scrapeNavigate (url : String)
deriving DecidableEq, Repr

/-- Responses of the outside world, one oracle per upstream service the
handler talks to.  `domFirstParagraphText` and `domStatusAnchorText`
stand for the linkedom queries `querySelector('p')?.textContent` and
`querySelector('a[href*="/status/"]')?.textContent` run on the oEmbed
html (library behaviour, external to this repository). -/
structure Net where
  recentThreadResponse : String → Tweets
  tweetsByIdsResponse : List String → Tweets
  oembedResponse : String → EmbedTweet
  domFirstParagraphText : String → Option String
  domStatusAnchorText : String → Option String

/-- Anchor (or span) element wrapping a `time` node on the scraped
thread page. -/
structure DomAnchor where
  tagName : String
  href : Option String
deriving DecidableEq, Repr

/-- A `time` element of the scraped thread page together with its parent
element, the only DOM context `getTweetIds` inspects. -/
structure TimeNode where
  parent : Option DomAnchor
deriving DecidableEq, Repr

/-! ## Character-level regex embedding

`eatLit p s` consumes the literal `p` from the front of `s`
(`Option.none` when `s` does not start with `p`).  It is the building
block of the explicit matchers for the two regexes of
twitter-handler.ts and the first-match `String.replace`. -/

def eatLit : List Char → List Char → Option (List Char)
  | [], s => some s
  | _ :: _, [] => none
  | c :: p, d :: s => if c = d then eatLit p s else none

/-- JS `\w` without the `u` flag: `[A-Za-z0-9_]`. -/
def isWordChar (c : Char) : Bool :=
  c.isAlpha || c.isDigit || c = '_'

/-- Matches the leading alternative `(twitter|x)` of `TWITTER_URL_MATCH`.
The two branches start with distinct characters, so the JS backtracking
order (try `twitter`, then `x`) is the committed choice written here. -/
def matchDomain (s : List Char) : Option (List Char × List Char) :=
  match eatLit "twitter".data s with
  | some r => some ("twitter".data, r)
  | none =>
    match eatLit "x".data s with
    | some r => some ("x".data, r)
    | none => none

/-- Matches `(\w+)\/status` : the greedy `\w+` run is maximal and `/` is
not a word character, so no shorter run can be followed by `/status`;
the committed maximal run is exactly the JS semantics. -/
def matchHandleStatus (s : List Char) : Option (List Char × List Char) :=
  let handle := s.takeWhile isWordChar
  if handle.isEmpty then none
  else
    match eatLit "/status".data (s.dropWhile isWordChar) with
    | some r => some (handle, r)
    | none => none

/-- Matches `\/(\d+)(?:\/.*)?$`-free tail `\/(\d+)` : after the greedy
`(\d+)` only the optional `(?:\/.*)?` follows, which always succeeds, so
the maximal digit run is the JS capture. -/
def matchSlashDigits (s : List Char) : Option (List Char × List Char) :=
  match s with
  | [] => none
  | c :: r =>
    if c = '/' then
      if (r.takeWhile Char.isDigit).isEmpty then none
      else some (r.takeWhile Char.isDigit, r.dropWhile Char.isDigit)
    else none

/-- Matches `(?:es)?\/(\d+)` : when `es` is present the no-`es` branch
would have to consume `/` at an `e`, so the two greedy branches are
mutually exclusive and committed choice is faithful. -/
def matchEsSlashDigits (s : List Char) : Option (List Char × List Char × List Char) :=
  match eatLit "es".data s with
  | some r => (matchSlashDigits r).map (fun p => ("es".data, p.1, p.2))
  | none => (matchSlashDigits s).map (fun p => (([] : List Char), p.1, p.2))

/-- Consumes the optional legacy `(?:#!\/)?` segment.  Committed
choice is faithful: skipping a present `#!/` would leave `\w+` at the
non-word character `#`, so at most one branch can succeed. -/
def skipHashBang (s : List Char) : List Char :=
  match eatLit "#!/".data s with
  | some r => r
  | none => s

/-- Attempts `TWITTER_URL_MATCH` at the start of `s`, returning the
three capture groups `(twitter|x)`, `(\w+)` and `(\d+)` in order. -/
def matchStatusAt (s : List Char) : Option (String × String × String) :=
  (matchDomain s).bind (fun dr =>
    (eatLit ".com/".data dr.2).bind (fun s2 =>
      (matchHandleStatus (skipHashBang s2)).bind (fun hs =>
        (matchEsSlashDigits hs.2).map (fun eds =>
          (⟨dr.1⟩, ⟨hs.1⟩, ⟨eds.2.1⟩)))))

/-- Unanchored leftmost match of `TWITTER_URL_MATCH`, as
`String.prototype.match` performs it: the first start position (left to
right) at which the pattern matches wins. -/
def findStatusMatch : List Char → Option (String × String × String)
  | [] => none
  | c :: t =>
    match matchStatusAt (c :: t) with
    | some g => some g
    | none => findStatusMatch t

/-! ## Pure helpers of twitter-handler.ts -/

/-- Embeds the regex constant `TWITTER_URL_MATCH` applied as a test
(`RegExp.prototype.test`). -/
def twitterUrlMatchTest (url : String) : Bool :=
  (findStatusMatch url.data).isSome

/-- Embeds `tweetIdFromStatusUrl` (twitter-handler.ts:164-167):
`url.match(TWITTER_URL_MATCH)?.[2]`.  Capture group 2 of
`TWITTER_URL_MATCH` is `(\w+)`, the handle segment, group 3 being the
`(\d+)` status number. -/
def tweetIdFromStatusUrl (url : String) : Option String :=
  (findStatusMatch url.data).map (fun g => g.2.1)

/-- Embeds `TwitterHandler.shouldPreHandle` (twitter-handler.ts:319-321). -/
def shouldPreHandle (url : String) : Bool :=
  twitterUrlMatchTest url

/-- First-match replacement of `/http\S+/` by the empty string, i.e.
`text.replace(/http\S+/, '')` of `titleForTweet`.  JS `\S` is the
complement of the whitespace class; `Char.isWhitespace` models it.  The
greedy `\S+` ends the pattern so its maximal run is the JS match; a
position where `http` is followed by whitespace or end of input does not
match (`\S+` needs one character) and scanning resumes one character to
the right, exactly as below. -/
def stripFirstHttpToken : List Char → List Char
  | [] => []
  | c :: t =>
    match eatLit "http".data (c :: t) with
    | some r =>
      let run := r.takeWhile (fun x => !x.isWhitespace)
      if run.isEmpty then c :: stripFirstHttpToken t
      else r.dropWhile (fun x => !x.isWhitespace)
    | none => c :: stripFirstHttpToken t

/-- Embeds `titleForTweet` (twitter-handler.ts:160-162). -/
def titleForTweet (author text : String) : String :=
  author ++ " on X: " ++ String.mk (stripFirstHttpToken text.data)

/-- Embeds `getTweetsFromResponse` (twitter-handler.ts:175-191): every
output tweet receives the whole `response.includes.users` list, while
`media` is filtered per tweet by membership of its key in the tweet's
`attachments.media_keys` (an absent `attachments` keeps no media, the
optional-chaining predicate being undefined, hence falsy, there). -/
def getTweetsFromResponse (response : Tweets) : List Tweet :=
  response.data.map (fun t =>
    { data := t
      includes :=
        { users := response.includes.users
          media := response.includes.media.map (fun ms =>
            ms.filter (fun m =>
              match t.attachments with
              | some a => a.media_keys.contains m.media_key
              | none => false)) } })

/-! ## Network-touching operations of twitter-handler.ts -/

/-- Embeds `getTweetThread` (twitter-handler.ts:92-113): without a
bearer token it throws `'No Twitter bearer token found'` before the
`axios.get`, so the effect list of that run is empty; with a token it
performs exactly one recent-search request. -/
def getTweetThread (token : Option String) (net : Net)
    (conversationId : String) : List Effect × Except String Tweets :=
  match token with
  | none => ([], Except.error "No Twitter bearer token found")
  | some _ =>
    ([Effect.recencySearch conversationId],
     Except.ok (net.recentThreadResponse conversationId))

/-- Embeds `getTweetsByIds` (twitter-handler.ts:142-158), with the same
token-before-request shape as `getTweetThread`. -/
def getTweetsByIds (token : Option String) (net : Net)
    (ids : List String) : List Effect × Except String Tweets :=
  match token with
  | none => ([], Except.error "No Twitter bearer token found")
  | some _ =>
    ([Effect.tweetsByIdsFetch ids],
     Except.ok (net.tweetsByIdsResponse ids))

/-- Embeds `getEmbedTweet` (twitter-handler.ts:115-122): one oEmbed GET,
no credential involved. -/
def getEmbedTweet (net : Net) (url : String) : List Effect × EmbedTweet :=
  ([Effect.oembedFetch url], net.oembedResponse url)

/-- Embeds the per-`time`-node body of the `page.evaluate` loop of
`getTweetIds` (twitter-handler.ts:278-298): skip nodes without a parent,
skip `SPAN` parents, skip parents without an `href`, match the href
against `/\/([^\/]+)\/status\/(\d+)/`, and keep the id only when the
captured username equals the requested author. -/
def matchHrefStatusAt : List Char → Option (String × String)
  | '/' :: r =>
    let user := r.takeWhile (fun c => c ≠ '/')
    if user.isEmpty then none
    else
      match eatLit "/status/".data (r.dropWhile (fun c => c ≠ '/')) with
      | none => none
      | some r2 =>
        let ds := r2.takeWhile Char.isDigit
        if ds.isEmpty then none else some (⟨user⟩, ⟨ds⟩)
  | _ => none

/-- Leftmost unanchored application of the href regex
`/\/([^\/]+)\/status\/(\d+)/` of the scrape loop.  `[^\/]+` is greedy
and cannot contain `/`, the character the continuation `\/status\/`
starts with, so the maximal run is the JS match. -/
def findHrefStatusMatch : List Char → Option (String × String)
  | [] => none
  | c :: t =>
    match matchHrefStatusAt (c :: t) with
    | some g => some g
    | none => findHrefStatusMatch t

/-- One `time` node's contribution to the scraped id list. -/
def nodeStatusId (author : String) (n : TimeNode) : Option String :=
  match n.parent with
  | none => none
  | some p =>
    if p.tagName = "SPAN" then none
    else
      match p.href with
      | none => none
      | some href =>
        match findHrefStatusMatch href.data with
        | none => none
        | some g => if g.1 = author then some g.2 else none

/-- The id list the in-page evaluation of `getTweetIds` returns for the
rendered `time` nodes. -/
def extractAuthorTweetIds (nodes : List TimeNode) (author : String) : List String :=
  nodes.filterMap (nodeStatusId author)

/-- Embeds `getTweetIds` (twitter-handler.ts:228-311).  `pageResult` is
the outcome of navigation plus in-page evaluation: an exception anywhere
in the `try` block lands in the `catch`, which logs and returns `[]`. -/
def getTweetIds (pageResult : Except String (List TimeNode))
    (tweetId author : String) : List Effect × List String :=
  ([Effect.scrapeNavigate
      ("https://twitter.com/" ++ author ++ "/status/" ++ tweetId)],
   match pageResult with
   | Except.error _ => []
   | Except.ok nodes => extractAuthorTweetIds nodes author)

/-- Embeds `getOldTweets` (twitter-handler.ts:193-204): scrape the ids,
return `[]` on an empty scrape, otherwise resolve the ids in one bulk
request and pass the response through `getTweetsFromResponse`
unchanged — no sorting and no deduplication happen on this path. -/
def getOldTweets (token : Option String) (net : Net)
    (pageResult : Except String (List TimeNode))
    (conversationId username : String) :
    List Effect × Except String (List Tweet) :=
  let scraped := getTweetIds pageResult conversationId username
  if scraped.2.isEmpty then (scraped.1, Except.ok [])
  else
    let fetched := getTweetsByIds token net scraped.2
    (scraped.1 ++ fetched.1,
     match fetched.2 with
     | Except.error e => Except.error e
     | Except.ok resp => Except.ok (getTweetsFromResponse resp))

/-- Pure core of `getRecentTweets` (twitter-handler.ts:206-213) applied
to an already-fetched thread response: empty on `result_count == 0`,
otherwise the response tweets reversed (the search endpoint returns
newest first). -/
def recentTweetsResult (thread : Tweets) : List Tweet :=
  if thread.meta.result_count = 0 then []
  else (getTweetsFromResponse thread).reverse

/-- Embeds `getRecentTweets` (twitter-handler.ts:206-213). -/
def getRecentTweets (token : Option String) (net : Net)
    (conversationId : String) : List Effect × Except String (List Tweet) :=
  let fetched := getTweetThread token net conversationId
  (fetched.1,
   match fetched.2 with
   | Except.error e => Except.error e
   | Except.ok thread => Except.ok (recentTweetsResult thread))

/-! ## The handler protocol -/

/-- The fields of `PreHandleResult` this handler populates
(content-handler.ts declares them optional; twitter-handler.ts returns
exactly these three). -/
structure PreHandleResult where
  content : String
  url : String
  title : String
deriving DecidableEq, Repr

/-- The html template literal of `TwitterHandler.preHandle`
(twitter-handler.ts:335-349). -/
def preHandleContent (embedTweet : EmbedTweet)
    (tweetText publisedDate : String) : String :=
  "\n      <html>\n          <head>\n            <meta property=\"og:site_name\" content=\"X (formerly Twitter)\" />\n            <meta property=\"og:type\" content=\"tweet\" />\n            <meta property=\"dc:creator\" content=\"" ++
    embedTweet.author_name ++
    "\" />\n            <meta property=\"twitter:description\" content=\"" ++
    tweetText ++
    "\" />\n            <meta property=\"article:published_time\" content=\"" ++
    publisedDate ++
    "\" />\n          </head>\n          <body>\n            <div>\n              " ++
    embedTweet.html ++
    "\n            </div>\n          </body>\n      </html>"

/-- Embeds `TwitterHandler.preHandle` (twitter-handler.ts:323-356): one
oEmbed fetch, linkedom text extraction on its html, title synthesis and
document assembly.  The body contains no call to `getRecentTweets`,
`getOldTweets`, `getTweetThread`, `getTweetsByIds` or `getTweetIds`. -/
def preHandle (net : Net) (url : String) : List Effect × PreHandleResult :=
  let fetched := getEmbedTweet net url
  let embedTweet := fetched.2
  let tweetText := (net.domFirstParagraphText embedTweet.html).getD ""
  let title := titleForTweet embedTweet.author_name tweetText
  let publisedDate := (net.domStatusAnchorText embedTweet.html).getD ""
  (fetched.1,
   { content := preHandleContent embedTweet tweetText publisedDate
     url := url
     title := title })

/-- Discriminates the effects that belong to one of the two
thread-fetch strategies: the recency-search request of the recent path
and the browser navigation / bulk-resolution requests of the scrape
path. -/
def isFetchStrategyEffect : Effect → Bool
  | Effect.recencySearch _ => true
  | Effect.tweetsByIdsFetch _ => true
  | Effect.scrapeNavigate _ => true
  | _ => false

/-! ## Unsubscribe helpers (services/subscriptions.ts)

`parseUnsubscribeMailTo` builds `new URL('mailto://' + input)` and only
consumes two observations of it: `parsed.search` (the component from the
first `?` of the input up to a `#`, empty when there is no `?`) and
`parsed.searchParams.get('subject')` (first `subject` pair of that
query, `+` and percent-escapes decoded).  Those two WHATWG-URL library
behaviours are embedded directly below. -/

/-- Value of a hexadecimal digit. -/
def hexDigitVal (c : Char) : Option Nat :=
  if c.isDigit then some (c.toNat - '0'.toNat)
  else if 'a' ≤ c ∧ c ≤ 'f' then some (c.toNat - 'a'.toNat + 10)
  else if 'A' ≤ c ∧ c ≤ 'F' then some (c.toNat - 'A'.toNat + 10)
  else none

/-- `application/x-www-form-urlencoded` decoding of one key or value, as
`URLSearchParams` performs it: `+` becomes a space and `%xx` pairs are
decoded (a malformed escape is kept literally). -/
def formUrlDecode : List Char → List Char
  | [] => []
  | '+' :: t => ' ' :: formUrlDecode t
  | '%' :: a :: b :: t =>
    match hexDigitVal a, hexDigitVal b with
    | some x, some y => Char.ofNat (16 * x + y) :: formUrlDecode t
    | _, _ => '%' :: formUrlDecode (a :: b :: t)
  | c :: t => c :: formUrlDecode t

/-- Splits a query pair at its first `=` (a pair without `=` has the
whole text as key and an empty value). -/
def queryPairKeyValue (p : List Char) : List Char × List Char :=
  (p.takeWhile (fun c => c ≠ '='),
   match p.dropWhile (fun c => c ≠ '=') with
   | [] => []
   | _ :: v => v)

/-- The `search` component `new URL` exposes for `mailto://` plus this
input: everything from the first `?` (before any `#`) to the end,
including the `?`; empty when the input has no query. -/
def urlSearchOf (s : String) : List Char :=
  (s.data.takeWhile (fun c => c ≠ '#')).dropWhile (fun c => c ≠ '?')

/-- `parsed.searchParams.get(key)`: first pair of the query whose
decoded key equals `key`, value decoded; `none` when absent. -/
def searchParamsGet (search : List Char) (key : String) : Option String :=
  match search with
  | [] => none
  | _ :: q =>
    ((q.splitOn '&').filter (fun p => !p.isEmpty)).findSome? (fun p =>
      if formUrlDecode (queryPairKeyValue p).1 = key.data then
        some (String.mk (formUrlDecode (queryPairKeyValue p).2))
      else none)

/-- `String.prototype.replace` with a string pattern: replaces the first
occurrence of `pat` by the empty string (an empty `pat` matches at
position 0 and the input is returned unchanged). -/
def replaceFirstStr : List Char → List Char → List Char
  | s, [] => s
  | [], _ :: _ => []
  | c :: t, pat =>
    match eatLit pat (c :: t) with
    | some r => r
    | none => c :: replaceFirstStr t pat

/-- Result record of `parseUnsubscribeMailTo` (the source field `to` is
a reserved Lean token and appears here as `toAddr`). -/
structure MailTo where
  toAddr : String
  subject : String
deriving DecidableEq, Repr

/-- Embeds `parseUnsubscribeMailTo` (subscriptions source, lines 24-38):
subject from the query (defaulting to `'Unsubscribe'` for an absent or
empty value, `||` treating `''` as falsy), recipient the input with its
`search` component removed, and an explicit error for an empty recipient
or one without `@`. -/
def parseUnsubscribeMailTo (unsubscribeMailTo : String) : Except String MailTo :=
  let search := urlSearchOf unsubscribeMailTo
  let subject :=
    match searchParamsGet search "subject" with
    | some v => if v = "" then "Unsubscribe" else v
    | none => "Unsubscribe"
  let recipient := String.mk (replaceFirstStr unsubscribeMailTo.data search)
  if recipient.isEmpty || !(recipient.data.contains '@') then
    Except.error ("Invalid unsubscribe email address: " ++ unsubscribeMailTo)
  else
    Except.ok { toAddr := recipient, subject := subject }

/-- The fixed body sentence `UNSUBSCRIBE_EMAIL_TEXT`. -/
def UNSUBSCRIBE_EMAIL_TEXT : String :=
  "This message was automatically generated by Omnivore."

/-- The message `sendUnsubscribeEmail` hands to `sendEmail` (the source
fields `to` and `from` are reserved Lean tokens and appear here as
`toAddr` and `fromAddr`). -/
structure EmailPayload where
  toAddr : String
  subject : String
  text : String
  fromAddr : String
deriving DecidableEq, Repr

/-- Embeds `sendUnsubscribeEmail` (subscriptions source, lines 40-65):
the whole body sits in a `try` whose `catch` logs and returns `false`,
so a parse error — and equally a throwing `sendEmail` — becomes the
boolean `false`; an unsent message is also `false`. -/
def sendUnsubscribeEmail (unsubscribeMailTo newsletterEmail : String)
    (sendEmail : EmailPayload → Except String Bool) : Bool :=
  match parseUnsubscribeMailTo unsubscribeMailTo with
  | Except.error _ => false
  | Except.ok parsed =>
    match sendEmail
        { toAddr := parsed.toAddr
          subject := parsed.subject
          text := UNSUBSCRIBE_EMAIL_TEXT
          fromAddr := newsletterEmail } with
    | Except.error _ => false
    | Except.ok sent => if !sent then false else true

/-! ## Orders, spec-side predicates and concrete sample data -/

/-- Lexicographic comparison of character lists; on ISO-8601 timestamp
strings such as `created_at` it is the chronological order. -/
def charListLe : List Char → List Char → Bool
  | [], _ => true
  | _ :: _, [] => false
  | a :: as, b :: bs => if a = b then charListLe as bs else decide (a < b)

/-- `created_at` order on tweet payloads. -/
def createdAtLe (a b : TweetData) : Bool :=
  charListLe a.created_at.data b.created_at.data

/-- A reconciled thread sorted ascending by `created_at`. -/
def sortedByCreatedAsc (l : List Tweet) : Prop :=
  l.Pairwise (fun a b => createdAtLe a.data b.data = true)

/-- A reconciled thread without duplicate tweet ids. -/
def threadIdsNodup (l : List Tweet) : Prop :=
  (l.map (fun t => t.data.id)).Nodup

/-- Spec-side constraints on the five variable segments of the
conversation-status URL shape
`domain/(optional-legacy-prefix/)handle/status(es)?/digits`. -/
def PatternParts (dom mid handle es ds : List Char) : Prop :=
  (dom = "twitter".data ∨ dom = "x".data) ∧
  (mid = [] ∨ mid = "#!/".data) ∧
  handle ≠ [] ∧ (∀ c ∈ handle, isWordChar c = true) ∧
  (es = [] ∨ es = "es".data) ∧
  ds ≠ [] ∧ (∀ c ∈ ds, c.isDigit = true)

/-- Spec-side reading of the recognized URL shape: the character string
contains (anywhere, the regex being unanchored) a segment
`(twitter|x).com/`, an optional legacy `#!/`, a non-empty word-character
handle, `/status` with an optional `es`, a `/` and a non-empty digit
run; anything may follow. -/
def StatusUrlPattern (s : List Char) : Prop :=
  ∃ pre dom mid handle es ds post,
    s = pre ++ (dom ++ (".com/".data ++ (mid ++ (handle ++
        ("/status".data ++ (es ++ ('/' :: (ds ++ post)))))))) ∧
    PatternParts dom mid handle es ds

/-- Spec-side reading of a position where `/http\S+/` can match: the
string starts with the literal `http` followed by at least one
non-whitespace character. -/
def HttpTokenStart (s : List Char) : Prop :=
  ∃ c r, s = "http".data ++ (c :: r) ∧ c.isWhitespace = false

/-- No position of the string starts an `http`-token (the regex
`/http\S+/` has no match anywhere). -/
def NoHttpToken (t : List Char) : Prop :=
  ∀ a b, t = a ++ b → ¬ HttpTokenStart b

/-- Spec-side characterization of single first-match `http`-token
stripping: either the body has no match and is returned unchanged, or
it splits as `pre ++ http ++ run ++ post` where `http ++ run` is the
leftmost match (no strict suffix of `pre` extended by the rest starts a
match), `run` is a non-empty maximal non-whitespace run (`post` is
empty or starts with whitespace), and exactly that match is removed —
everything after it, later URLs included, is kept verbatim. -/
def FirstHttpStrip (t r : List Char) : Prop :=
  (NoHttpToken t ∧ r = t) ∨
  ∃ pre run post,
    t = pre ++ ("http".data ++ (run ++ post)) ∧
    r = pre ++ post ∧
    run ≠ [] ∧
    (∀ c ∈ run, c.isWhitespace = false) ∧
    (∀ c post', post = c :: post' → c.isWhitespace = true) ∧
    (∀ a b, pre = a ++ b → b ≠ [] →
      ¬ HttpTokenStart (b ++ ("http".data ++ (run ++ post))))

/-- Sample author record. -/
def cUserA : TweetUser :=
  { id := "ua", name := "Alice", profile_image_url := "http://img", username := "alice" }

/-- Sample earlier tweet of the conversation. -/
def dT1 : TweetData :=
  { id := "1", author_id := "ua", text := "first", entities := ⟨[]⟩,
    created_at := "2023-01-01T00:00:00.000Z", referenced_tweets := [],
    conversation_id := "1", attachments := none }

/-- Sample later tweet of the conversation. -/
def dT2 : TweetData :=
  { id := "2", author_id := "ua", text := "second", entities := ⟨[]⟩,
    created_at := "2023-02-01T00:00:00.000Z", referenced_tweets := [],
    conversation_id := "1", attachments := none }

/-- Sample `includes` block with a single author record. -/
def cIncludesA : TweetIncludes := ⟨[cUserA], none⟩

/-- Sample batch response listing the two tweets newest first, the
order the recent-search endpoint uses and also the order a bulk-by-ids
response delivers for a newest-first id list. -/
def cRespDesc : Tweets := ⟨[dT2, dT1], cIncludesA, ⟨2⟩⟩

/-- Sample oEmbed response. -/
def cEmbed : EmbedTweet :=
  { author_name := "Alice", author_url := "https://twitter.com/alice",
    cache_age := "3153600000", height := 0,
    html := "<blockquote><p>first</p></blockquote>",
    provider_name := "Twitter", provider_url := "https://twitter.com",
    type := "rich", url := "https://twitter.com/alice/status/1",
    version := "1.0", width := 550 }

/-- Sample world whose every endpoint answers with the fixed responses
above. -/
def cNet1 : Net :=
  { recentThreadResponse := fun _ => cRespDesc
    tweetsByIdsResponse := fun _ => cRespDesc
    oembedResponse := fun _ => cEmbed
    domFirstParagraphText := fun _ => none
    domStatusAnchorText := fun _ => none }

/-- Sample scraped page: two author-owned replies in newest-first DOM
order. -/
def cPageOk : Except String (List TimeNode) :=
  Except.ok
    [⟨some ⟨"A", some "/alice/status/2"⟩⟩,
     ⟨some ⟨"A", some "/alice/status/1"⟩⟩]

/-- The `Tweet` record `getTweetsFromResponse cRespDesc` builds for
`dT1`. -/
def cTweet1 : Tweet := ⟨dT1, cIncludesA⟩

/-- The `Tweet` record `getTweetsFromResponse cRespDesc` builds for
`dT2`. -/
def cTweet2 : Tweet := ⟨dT2, cIncludesA⟩

/-- Sample `sendEmail` oracle that reports a delivered message. -/
def cSendEmail : EmailPayload → Except String Bool := fun _ => Except.ok true

/-- Sample `time` node whose parent anchor links an author-owned
status. -/
def cNodeAlice : TimeNode := ⟨some ⟨"A", some "/alice/status/7"⟩⟩

/-! ## Helper lemmas -/

theorem eatLit_eq_some {p : List Char} :
    ∀ {s r : List Char}, eatLit p s = some r → s = p ++ r := by
  induction p with
  | nil =>
    intro s r h
    simp [eatLit] at h
    simp [h]
  | cons c p ih =>
    intro s r h
    cases s with
    | nil => simp [eatLit] at h
    | cons d t =>
      by_cases hc : c = d
      · subst hc
        simp [eatLit] at h
        have := ih h
        simp [this]
      · simp [eatLit, hc] at h

theorem eatLit_append (p r : List Char) : eatLit p (p ++ r) = some r := by
  induction p with
  | nil => rfl
  | cons c t ih => simp [eatLit, ih]

theorem eatLit_cons_ne {c d : Char} (p s : List Char) (h : c ≠ d) :
    eatLit (c :: p) (d :: s) = none := by
  simp [eatLit, h]

theorem mem_replaceFirstStr {a : Char} :
    ∀ (s pat : List Char), a ∈ replaceFirstStr s pat → a ∈ s := by
  intro s
  induction s with
  | nil =>
    intro pat h
    cases pat with
    | nil => exact h
    | cons p ps => exact h
  | cons c t ih =>
    intro pat h
    cases pat with
    | nil => exact h
    | cons p ps =>
      cases he : eatLit (p :: ps) (c :: t) with
      | some r =>
        simp only [replaceFirstStr, he] at h
        rw [eatLit_eq_some he]
        exact List.mem_append_right _ h
      | none =>
        simp only [replaceFirstStr, he, List.mem_cons] at h
        rcases h with h | h
        · exact h ▸ List.mem_cons_self c t
        · exact List.mem_cons_of_mem c (ih (p :: ps) h)

theorem parseUnsubscribeMailTo_error_of_noAt (s : String) (hs : '@' ∉ s.data) :
    parseUnsubscribeMailTo s =
      Except.error ("Invalid unsubscribe email address: " ++ s) := by
  have hc : (String.mk (replaceFirstStr s.data (urlSearchOf s))).data.contains '@' = false := by
    rw [Bool.eq_false_iff]
    intro htrue
    exact hs (mem_replaceFirstStr s.data (urlSearchOf s) (List.elem_iff.mp htrue))
  simp only [parseUnsubscribeMailTo, hc, Bool.not_false, Bool.or_true, if_true]

theorem takeWhile_middle {p : Char → Bool} :
    ∀ (a : List Char) (b : Char) (r : List Char),
      (∀ c ∈ a, p c = true) → p b = false →
      (a ++ b :: r).takeWhile p = a ∧ (a ++ b :: r).dropWhile p = b :: r := by
  intro a b r
  induction a with
  | nil =>
    intro _ hb
    simp [List.takeWhile_cons, List.dropWhile_cons, hb]
  | cons x xs ih =>
    intro ha hb
    have hx : p x = true := ha x (List.mem_cons_self x xs)
    obtain ⟨ih1, ih2⟩ := ih (fun c hc => ha c (List.mem_cons_of_mem x hc)) hb
    constructor
    · simp [List.takeWhile_cons, hx, ih1]
    · simp [List.dropWhile_cons, hx, ih2]

theorem matchDomain_eq_some {s dom r : List Char}
    (h : matchDomain s = some (dom, r)) :
    (dom = "twitter".data ∨ dom = "x".data) ∧ s = dom ++ r := by
  cases h1 : eatLit "twitter".data s with
  | some r1 =>
    have he := eatLit_eq_some h1
    simp only [matchDomain, h1, Option.some.injEq, Prod.mk.injEq] at h
    obtain ⟨h2, h3⟩ := h
    subst h2
    subst h3
    exact ⟨Or.inl rfl, he⟩
  | none =>
    cases h2 : eatLit "x".data s with
    | some r1 =>
      have he := eatLit_eq_some h2
      simp only [matchDomain, h1, h2, Option.some.injEq, Prod.mk.injEq] at h
      obtain ⟨h3, h4⟩ := h
      subst h3
      subst h4
      exact ⟨Or.inr rfl, he⟩
    | none => exact absurd h (by simp [matchDomain, h1, h2])

theorem matchDomain_append (dom rest : List Char)
    (h : dom = "twitter".data ∨ dom = "x".data) :
    matchDomain (dom ++ rest) = some (dom, rest) := by
  rcases h with rfl | rfl
  · simp [matchDomain, eatLit]
  · simp [matchDomain, eatLit]

theorem matchHandleStatus_eq_some {s handle r : List Char}
    (h : matchHandleStatus s = some (handle, r)) :
    s = handle ++ ("/status".data ++ r) ∧ handle ≠ [] ∧
      ∀ c ∈ handle, isWordChar c = true := by
  cases he : (s.takeWhile isWordChar).isEmpty with
  | true => exact absurd h (by simp [matchHandleStatus, he])
  | false =>
    cases h2 : eatLit "/status".data (s.dropWhile isWordChar) with
    | none => exact absurd h (by simp [matchHandleStatus, he, h2])
    | some r2 =>
      simp only [matchHandleStatus, he, h2, Bool.false_eq_true, if_false,
        Option.some.injEq, Prod.mk.injEq] at h
      obtain ⟨h3, h4⟩ := h
      subst h3
      subst h4
      refine ⟨?_, ?_, fun c hc => List.mem_takeWhile_imp hc⟩
      · rw [← eatLit_eq_some h2]
        exact (List.takeWhile_append_dropWhile isWordChar s).symm
      · intro hnil
        rw [hnil] at he
        exact absurd he (by simp)

theorem matchHandleStatus_append (handle rest : List Char) (hne : handle ≠ [])
    (hw : ∀ c ∈ handle, isWordChar c = true) :
    matchHandleStatus (handle ++ ("/status".data ++ rest)) =
      some (handle, rest) := by
  have hsplit : "/status".data ++ rest = '/' :: ("status".data ++ rest) := rfl
  have key := takeWhile_middle handle '/' ("status".data ++ rest) hw (by decide)
  have hie : handle.isEmpty = false := by
    cases handle with
    | nil => exact absurd rfl hne
    | cons a b => rfl
  rw [hsplit]
  simp only [matchHandleStatus, key.1, key.2, hie, Bool.false_eq_true, if_false]
  simp [eatLit]

theorem matchSlashDigits_eq_some {s ds post : List Char}
    (h : matchSlashDigits s = some (ds, post)) :
    s = '/' :: (ds ++ post) ∧ ds ≠ [] ∧ ∀ c ∈ ds, c.isDigit = true := by
  cases s with
  | nil => exact absurd h (by simp [matchSlashDigits])
  | cons c r =>
    by_cases hc : c = '/'
    · subst hc
      cases he : (r.takeWhile Char.isDigit).isEmpty with
      | true => exact absurd h (by simp [matchSlashDigits, he])
      | false =>
        simp only [matchSlashDigits, he, if_true, Bool.false_eq_true, if_false,
          Option.some.injEq, Prod.mk.injEq] at h
        obtain ⟨h3, h4⟩ := h
        subst h3
        subst h4
        refine ⟨?_, ?_, fun c hc => List.mem_takeWhile_imp hc⟩
        · rw [List.takeWhile_append_dropWhile]
        · intro hnil
          rw [hnil] at he
          exact absurd he (by simp)
    · exact absurd h (by simp [matchSlashDigits, hc])

theorem matchSlashDigits_append (ds post : List Char) (hne : ds ≠ [])
    (hdig : ∀ c ∈ ds, c.isDigit = true) :
    (matchSlashDigits ('/' :: (ds ++ post))).isSome := by
  cases ds with
  | nil => exact absurd rfl hne
  | cons d t =>
    have hd : d.isDigit = true := hdig d (List.mem_cons_self d t)
    simp [matchSlashDigits, List.takeWhile_cons, hd]

theorem matchEsSlashDigits_eq_some {s es ds post : List Char}
    (h : matchEsSlashDigits s = some (es, ds, post)) :
    s = es ++ ('/' :: (ds ++ post)) ∧ (es = [] ∨ es = "es".data) ∧
      ds ≠ [] ∧ ∀ c ∈ ds, c.isDigit = true := by
  cases he : eatLit "es".data s with
  | some r =>
    cases hm : matchSlashDigits r with
    | none => exact absurd h (by simp [matchEsSlashDigits, he, hm])
    | some p =>
      obtain ⟨ds1, post1⟩ := p
      simp only [matchEsSlashDigits, he, hm, Option.map_some', Option.some.injEq,
        Prod.mk.injEq] at h
      obtain ⟨h1, h2, h3⟩ := h
      subst h1
      subst h2
      subst h3
      obtain ⟨hr, hdne, hdig⟩ := matchSlashDigits_eq_some hm
      exact ⟨by rw [eatLit_eq_some he, hr], Or.inr rfl, hdne, hdig⟩
  | none =>
    cases hm : matchSlashDigits s with
    | none => exact absurd h (by simp [matchEsSlashDigits, he, hm])
    | some p =>
      obtain ⟨ds1, post1⟩ := p
      simp only [matchEsSlashDigits, he, hm, Option.map_some', Option.some.injEq,
        Prod.mk.injEq] at h
      obtain ⟨h1, h2, h3⟩ := h
      subst h1
      subst h2
      subst h3
      obtain ⟨hr, hdne, hdig⟩ := matchSlashDigits_eq_some hm
      exact ⟨by rw [hr]; rfl, Or.inl rfl, hdne, hdig⟩

theorem matchEsSlashDigits_append (es ds post : List Char)
    (hes : es = [] ∨ es = "es".data) (hdne : ds ≠ [])
    (hdig : ∀ c ∈ ds, c.isDigit = true) :
    (matchEsSlashDigits (es ++ ('/' :: (ds ++ post)))).isSome := by
  rcases hes with rfl | rfl
  · have he : eatLit "es".data ('/' :: (ds ++ post)) = none :=
      eatLit_cons_ne _ _ (by decide)
    have hm := matchSlashDigits_append ds post hdne hdig
    simp only [List.nil_append, matchEsSlashDigits, he, Option.isSome_map']
    exact hm
  · have he : eatLit "es".data ("es".data ++ ('/' :: (ds ++ post))) =
        some ('/' :: (ds ++ post)) := eatLit_append _ _
    have hm := matchSlashDigits_append ds post hdne hdig
    simp only [matchEsSlashDigits, he, Option.isSome_map']
    exact hm

theorem skipHashBang_decomp (s : List Char) :
    ∃ mid, (mid = [] ∨ mid = "#!/".data) ∧ s = mid ++ skipHashBang s := by
  cases he : eatLit "#!/".data s with
  | some r =>
    have h1 : skipHashBang s = r := by simp [skipHashBang, he]
    exact ⟨"#!/".data, Or.inr rfl, by rw [h1]; exact eatLit_eq_some he⟩
  | none =>
    have h1 : skipHashBang s = s := by simp [skipHashBang, he]
    exact ⟨[], Or.inl rfl, by rw [h1]; rfl⟩

theorem skipHashBang_append_words (mid : List Char) (h0 : Char) (rest : List Char)
    (hm : mid = [] ∨ mid = "#!/".data) (hw : isWordChar h0 = true) :
    skipHashBang (mid ++ h0 :: rest) = h0 :: rest := by
  rcases hm with rfl | rfl
  · have hne : ('#' : Char) ≠ h0 := by
      intro he
      rw [← he] at hw
      exact absurd hw (by decide)
    simp [skipHashBang, eatLit, hne]
  · simp [skipHashBang, eatLit]

theorem matchStatusAt_eq_some {s : List Char} {g : String × String × String}
    (h : matchStatusAt s = some g) :
    ∃ dom mid handle es ds post,
      s = dom ++ (".com/".data ++ (mid ++ (handle ++
        ("/status".data ++ (es ++ ('/' :: (ds ++ post))))))) ∧
      PatternParts dom mid handle es ds := by
  cases h1 : matchDomain s with
  | none => exact absurd h (by simp [matchStatusAt, h1])
  | some dr =>
    obtain ⟨dom, s1⟩ := dr
    cases h2 : eatLit ".com/".data s1 with
    | none => exact absurd h (by simp [matchStatusAt, h1, h2])
    | some s2 =>
      cases h3 : matchHandleStatus (skipHashBang s2) with
      | none => exact absurd h (by simp [matchStatusAt, h1, h2, h3])
      | some hs =>
        obtain ⟨handle, s5⟩ := hs
        cases h4 : matchEsSlashDigits s5 with
        | none => exact absurd h (by simp [matchStatusAt, h1, h2, h3, h4])
        | some eds =>
          obtain ⟨es, ds, post⟩ := eds
          obtain ⟨hdom, hs1⟩ := matchDomain_eq_some h1
          have hs2 : s1 = ".com/".data ++ s2 := eatLit_eq_some h2
          obtain ⟨mid, hmid, hsplit⟩ := skipHashBang_decomp s2
          obtain ⟨hhs, hne, hword⟩ := matchHandleStatus_eq_some h3
          obtain ⟨hs5, heso, hdne, hdig⟩ := matchEsSlashDigits_eq_some h4
          refine ⟨dom, mid, handle, es, ds, post, ?_,
            hdom, hmid, hne, hword, heso, hdne, hdig⟩
          rw [hs1, hs2, hsplit, hhs, hs5]

theorem matchStatusAt_append (dom mid handle es ds post : List Char)
    (hp : PatternParts dom mid handle es ds) :
    (matchStatusAt (dom ++ (".com/".data ++ (mid ++ (handle ++
      ("/status".data ++ (es ++ ('/' :: (ds ++ post))))))))).isSome := by
  obtain ⟨hdom, hmid, hne, hword, hes, hdne, hdig⟩ := hp
  have h1 := matchDomain_append dom
    (".com/".data ++ (mid ++ (handle ++
      ("/status".data ++ (es ++ ('/' :: (ds ++ post))))))) hdom
  have h2 := eatLit_append ".com/".data
    (mid ++ (handle ++ ("/status".data ++ (es ++ ('/' :: (ds ++ post))))))
  have h3 : skipHashBang (mid ++ (handle ++
      ("/status".data ++ (es ++ ('/' :: (ds ++ post)))))) =
      handle ++ ("/status".data ++ (es ++ ('/' :: (ds ++ post)))) := by
    cases handle with
    | nil => exact absurd rfl hne
    | cons h0 t =>
      exact skipHashBang_append_words mid h0
        (t ++ ("/status".data ++ (es ++ ('/' :: (ds ++ post))))) hmid
        (hword h0 (List.mem_cons_self h0 t))
  have h4 := matchHandleStatus_append handle
    (es ++ ('/' :: (ds ++ post))) hne hword
  have h5 := matchEsSlashDigits_append es ds post hes hdne hdig
  obtain ⟨eds, heds⟩ := Option.isSome_iff_exists.mp h5
  unfold matchStatusAt
  rw [h1, Option.some_bind]
  dsimp only
  rw [h2, Option.some_bind]
  dsimp only
  rw [h3, h4, Option.some_bind]
  dsimp only
  rw [heds, Option.map_some']
  rfl

theorem findStatusMatch_isSome_append (pre t : List Char)
    (h : (matchStatusAt t).isSome) :
    (findStatusMatch (pre ++ t)).isSome := by
  induction pre with
  | nil =>
    cases t with
    | nil =>
      have h0 : matchStatusAt ([] : List Char) = none := rfl
      rw [h0] at h
      exact absurd h (by simp)
    | cons c r =>
      cases hm : matchStatusAt (c :: r) with
      | none => rw [hm] at h; exact absurd h (by simp)
      | some g => simp [findStatusMatch, hm]
  | cons p ps ih =>
    cases hm : matchStatusAt (p :: (ps ++ t)) with
    | none =>
      have : findStatusMatch ((p :: ps) ++ t) = findStatusMatch (ps ++ t) := by
        simp [findStatusMatch, hm]
      rw [this]
      exact ih
    | some g => simp [findStatusMatch, hm]

theorem findStatusMatch_eq_some {s : List Char} {g : String × String × String}
    (h : findStatusMatch s = some g) :
    ∃ pre t, s = pre ++ t ∧ matchStatusAt t = some g := by
  induction s with
  | nil => exact absurd h (by simp [findStatusMatch])
  | cons c t ih =>
    cases hm : matchStatusAt (c :: t) with
    | some g1 =>
      simp only [findStatusMatch, hm] at h
      exact ⟨[], c :: t, rfl, by rw [hm, h]⟩
    | none =>
      simp only [findStatusMatch, hm] at h
      obtain ⟨pre, t1, heq, hmt⟩ := ih h
      exact ⟨c :: pre, t1, by rw [List.cons_append, heq], hmt⟩

theorem dropWhile_head_false {α : Type} {p : α → Bool} {l : List α} {c : α}
    {r : List α} (h : l.dropWhile p = c :: r) : p c = false := by
  induction l with
  | nil => simp [List.dropWhile] at h
  | cons x xs ih =>
    rw [List.dropWhile_cons] at h
    by_cases hx : p x = true
    · rw [if_pos hx] at h
      exact ih h
    · rw [if_neg hx] at h
      obtain ⟨h1, _⟩ := List.cons.injEq .. |>.mp h
      rw [← h1]
      exact Bool.eq_false_iff.mpr hx

theorem FirstHttpStrip.cons {c : Char} {t r : List Char}
    (hns : ¬ HttpTokenStart (c :: t)) (h : FirstHttpStrip t r) :
    FirstHttpStrip (c :: t) (c :: r) := by
  rcases h with ⟨hno, rfl⟩ | ⟨pre, run, post, heq, hr, hrun, hnsp, hmax, hleft⟩
  · left
    refine ⟨?_, rfl⟩
    intro a b hab
    cases a with
    | nil =>
      rw [List.nil_append] at hab
      rw [← hab]
      exact hns
    | cons x a' =>
      rw [List.cons_append] at hab
      injection hab with h1 h2
      exact hno a' b h2
  · right
    refine ⟨c :: pre, run, post, ?_, ?_, hrun, hnsp, hmax, ?_⟩
    · rw [List.cons_append, ← heq]
    · rw [List.cons_append, ← hr]
    · intro a b hab hbne
      cases a with
      | nil =>
        rw [List.nil_append] at hab
        rw [← hab, List.cons_append, ← heq]
        exact hns
      | cons x a' =>
        rw [List.cons_append] at hab
        injection hab with h1 h2
        exact hleft a' b h2 hbne

theorem stripFirstHttpToken_spec (t : List Char) :
    FirstHttpStrip t (stripFirstHttpToken t) := by
  induction t with
  | nil =>
    left
    refine ⟨?_, rfl⟩
    intro a b hab hstart
    obtain ⟨d, rr, hcr, _⟩ := hstart
    have hb : b = [] := (List.append_eq_nil.mp hab.symm).2
    rw [hb] at hcr
    exact absurd hcr.symm (by simp)
  | cons c t ih =>
    cases he : eatLit "http".data (c :: t) with
    | some r =>
      cases hrun : (r.takeWhile (fun x => !x.isWhitespace)).isEmpty with
      | true =>
        have hres : stripFirstHttpToken (c :: t) = c :: stripFirstHttpToken t := by
          simp [stripFirstHttpToken, he, hrun]
        rw [hres]
        refine FirstHttpStrip.cons ?_ ih
        rintro ⟨d, rr, hcr, hd⟩
        have hr0 := eatLit_eq_some he
        have hrd : r = d :: rr := by
          rw [hr0] at hcr
          exact List.append_cancel_left hcr
        rw [hrd] at hrun
        simp [List.takeWhile_cons, hd] at hrun
      | false =>
        have hres : stripFirstHttpToken (c :: t) =
            r.dropWhile (fun x => !x.isWhitespace) := by
          simp [stripFirstHttpToken, he, hrun]
        rw [hres]
        right
        refine ⟨[], r.takeWhile (fun x => !x.isWhitespace),
          r.dropWhile (fun x => !x.isWhitespace), ?_, ?_, ?_, ?_, ?_, ?_⟩
        · rw [List.nil_append, List.takeWhile_append_dropWhile]
          exact eatLit_eq_some he
        · exact (List.nil_append _).symm
        · intro hnil
          rw [hnil] at hrun
          exact absurd hrun (by simp)
        · intro x hx
          have := List.mem_takeWhile_imp hx
          simpa using this
        · intro d post' hpost
          have := dropWhile_head_false hpost
          simpa using this
        · intro a b hab hbne
          exact absurd ((List.append_eq_nil.mp hab.symm).2) hbne
    | none =>
      have hres : stripFirstHttpToken (c :: t) = c :: stripFirstHttpToken t := by
        simp [stripFirstHttpToken, he]
      rw [hres]
      refine FirstHttpStrip.cons ?_ ih
      rintro ⟨d, rr, hcr, _⟩
      rw [hcr, eatLit_append] at he
      exact absurd he (by simp)

/-! ## The claims -/

/-- C5.  `shouldPreHandle` is the pure regex test `TWITTER_URL_MATCH`
over the URL string — its embedding is a total function with no effect
parameter, mirroring that the source performs no I/O — and it accepts a
URL exactly when the URL contains the recognized conversation-status
shape `(twitter|x).com/(#!/)?handle/status(es)?/digits`: true for every
matching URL, false for every other URL. -/
theorem claim_C5 (url : String) :
    shouldPreHandle url = true ↔ StatusUrlPattern url.data := by
  constructor
  · intro h
    unfold shouldPreHandle twitterUrlMatchTest at h
    obtain ⟨g, hg⟩ := Option.isSome_iff_exists.mp h
    obtain ⟨pre, t, heq, hmt⟩ := findStatusMatch_eq_some hg
    obtain ⟨dom, mid, handle, es, ds, post, ht, hp⟩ := matchStatusAt_eq_some hmt
    exact ⟨pre, dom, mid, handle, es, ds, post, by rw [heq, ht], hp⟩
  · rintro ⟨pre, dom, mid, handle, es, ds, post, heq, hp⟩
    unfold shouldPreHandle twitterUrlMatchTest
    rw [heq]
    exact findStatusMatch_isSome_append pre _
      (matchStatusAt_append dom mid handle es ds post hp)

theorem claim_C5_witness :
    shouldPreHandle "https://x.com/jack/statuses/20/photo/1" = true ∧
    StatusUrlPattern ("https://x.com/jack/statuses/20/photo/1").data :=
  ⟨rfl, (claim_C5 "https://x.com/jack/statuses/20/photo/1").mp rfl⟩


/-- C3.  The claim says `tweetIdFromStatusUrl` returns the digits
segment (the numeric post id) for a matching URL.  The code returns
capture group 2 of `TWITTER_URL_MATCH`, but after the fork added the
capturing alternative `(twitter|x)` in front, group 2 is the `(\w+)`
handle and the digits moved to group 3: on the matching URL
`https://twitter.com/jack/status/20` the function yields the handle
`jack`, not the post id `20`.  The non-matching side of the claim does
hold: an unrecognized URL yields `none`. -/
theorem claim_C3_bug_eval :
    tweetIdFromStatusUrl "https://twitter.com/jack/status/20" = some "jack" ∧
    ("jack" : String) ≠ "20" ∧
    tweetIdFromStatusUrl "https://example.org/not-a-status" = none :=
  ⟨rfl, by decide, rfl⟩

/-- C4.  For every author display name and every body text,
`titleForTweet` returns `{author} on X: {body}` where the body is the
text with exactly the first `http`-token stripped, characterized
declaratively by `FirstHttpStrip`: either no `http`-token occurs and
the text is unchanged, or precisely the leftmost maximal token is
removed and everything after it — subsequent URLs included — is kept
verbatim.  On the spec's example body the first URL disappears and the
second survives. -/
theorem claim_C4 :
    (∀ (author text : String), ∃ body : List Char,
      titleForTweet author text = author ++ (" on X: " ++ String.mk body) ∧
      FirstHttpStrip text.data body) ∧
    (∀ author : String,
      titleForTweet author "see http://a and http://b" =
        author ++ " on X: see  and http://b") := by
  constructor
  · intro author text
    refine ⟨stripFirstHttpToken text.data, ?_, stripFirstHttpToken_spec text.data⟩
    unfold titleForTweet
    rw [String.append_assoc]
  · intro author
    unfold titleForTweet
    rw [String.append_assoc]
    have h : (" on X: " ++
        (⟨stripFirstHttpToken "see http://a and http://b".data⟩ : String)) =
        " on X: see  and http://b" := rfl
    rw [h]

theorem claim_C4_witness :
    (∃ body : List Char,
      titleForTweet "Jane" "see http://a and http://b" =
        "Jane" ++ (" on X: " ++ String.mk body) ∧
      FirstHttpStrip ("see http://a and http://b").data body) ∧
    titleForTweet "Jane" "see http://a and http://b" =
      "Jane" ++ " on X: see  and http://b" :=
  ⟨claim_C4.1 "Jane" "see http://a and http://b", claim_C4.2 "Jane"⟩

/-- C6.  Any exception thrown during navigation or in-page evaluation
of the scrape fetcher lands in the `catch` of `getTweetIds`, which
converts it to an empty id list; the function's result type is total,
so the scrape path never fails the pipeline. -/
theorem claim_C6 (err tweetId author : String) :
    (getTweetIds (Except.error err) tweetId author).2 = [] :=
  rfl

theorem claim_C6_witness :
    (getTweetIds (Except.error "navigation timeout") "20" "jack").2 = [] :=
  claim_C6 "navigation timeout" "20" "jack"

/-- C2, counterexample.  The claim says every `preHandle` lookup uses
exactly one fetch strategy.  In this code `preHandle` only fetches the
oEmbed document: for a concrete lookup the number of fetch-strategy
requests it performs is 0, not 1 — `getRecentTweets` and `getOldTweets`
are never reached from `preHandle`. -/
theorem claim_C2_counterexample :
    ¬ ((preHandle cNet1 "https://twitter.com/jack/status/20").1.countP
        isFetchStrategyEffect = 1) := by
  decide

/-- C2, amended.  `preHandle` performs exactly the one oEmbed fetch and
never invokes either thread-fetch strategy; in particular the recency
path and the scrape path are never both invoked for one lookup. -/
theorem claim_C2_amended (net : Net) (url : String) :
    (preHandle net url).1 = [Effect.oembedFetch url] ∧
    (preHandle net url).1.filter isFetchStrategyEffect = [] :=
  ⟨rfl, rfl⟩

theorem claim_C2_witness :
    (preHandle cNet1 "https://twitter.com/jack/status/20").1 =
      [Effect.oembedFetch "https://twitter.com/jack/status/20"] ∧
    (preHandle cNet1 "https://twitter.com/jack/status/20").1.filter
      isFetchStrategyEffect = [] :=
  claim_C2_amended cNet1 "https://twitter.com/jack/status/20"

/-- C8.  With the bearer credential absent, `getTweetThread` and
`getTweetsByIds` both fail with the configuration error before issuing
any request (their effect trace is empty), and in every configuration
each of them performs at most one request — there is no retry. -/
theorem claim_C8 (net : Net) (conversationId : String) (ids : List String) :
    ((getTweetThread none net conversationId).1 = [] ∧
      (getTweetThread none net conversationId).2 =
        Except.error "No Twitter bearer token found") ∧
    ((getTweetsByIds none net ids).1 = [] ∧
      (getTweetsByIds none net ids).2 =
        Except.error "No Twitter bearer token found") ∧
    (∀ token : Option String,
      (getTweetThread token net conversationId).1.length ≤ 1 ∧
      (getTweetsByIds token net ids).1.length ≤ 1) := by
  refine ⟨⟨rfl, rfl⟩, ⟨rfl, rfl⟩, ?_⟩
  intro token
  cases token <;> simp [getTweetThread, getTweetsByIds]

theorem claim_C8_witness :
    (getTweetThread none cNet1 "20").1 = [] ∧
    (getTweetsByIds none cNet1 ["1", "2"]).1 = [] ∧
    (getTweetThread (some "token") cNet1 "20").1.length ≤ 1 :=
  ⟨(claim_C8 cNet1 "20" ["1", "2"]).1.1,
   (claim_C8 cNet1 "20" ["1", "2"]).2.1.1,
   ((claim_C8 cNet1 "20" ["1", "2"]).2.2 (some "token")).1⟩

/-- C7.  Every identifier the scrape evaluation keeps comes from a
`time` node whose parent is a non-`SPAN` element carrying an href whose
`/username/status/digits` match has the requested author as its
username: replies by other authors are excluded. -/
theorem claim_C7 (nodes : List TimeNode) (author id : String)
    (h : id ∈ extractAuthorTweetIds nodes author) :
    ∃ n ∈ nodes, ∃ p href, n.parent = some p ∧ p.tagName ≠ "SPAN" ∧
      p.href = some href ∧
      findHrefStatusMatch href.data = some (author, id) := by
  obtain ⟨n, hn, hf⟩ := List.mem_filterMap.mp h
  refine ⟨n, hn, ?_⟩
  obtain ⟨par⟩ := n
  cases par with
  | none => exact absurd hf (by simp [nodeStatusId])
  | some p =>
    obtain ⟨tag, hrefOpt⟩ := p
    by_cases hs : tag = "SPAN"
    · exact absurd hf (by simp [nodeStatusId, hs])
    · cases hrefOpt with
      | none => exact absurd hf (by simp [nodeStatusId, hs])
      | some href =>
        cases hm : findHrefStatusMatch href.data with
        | none => exact absurd hf (by simp [nodeStatusId, hs, hm])
        | some g =>
          obtain ⟨g1, g2⟩ := g
          by_cases ha : g1 = author
          · have hid : g2 = id := by
              simp [nodeStatusId, hs, hm, ha] at hf
              exact hf
            exact ⟨⟨tag, some href⟩, href, rfl, hs, rfl, by rw [hm, ha, hid]⟩
          · exact absurd hf (by simp [nodeStatusId, hs, hm, ha])

theorem claim_C7_witness :
    ∃ n ∈ [cNodeAlice], ∃ p href, n.parent = some p ∧ p.tagName ≠ "SPAN" ∧
      p.href = some href ∧
      findHrefStatusMatch href.data = some ("alice", "7") :=
  claim_C7 [cNodeAlice] "alice" "7" (by decide)

/-- C9, counterexample.  The claim says author records are never
embedded by copy into every post and the final structure contains no
duplicate author record per distinct `authorId`.  `getTweetsFromResponse`
attaches the whole `includes.users` list to every output tweet, so in a
two-tweet batch with one author the assembled structure carries that
author record twice. -/
theorem claim_C9_counterexample :
    ((getTweetsFromResponse cRespDesc).map
      (fun t => t.includes.users)).flatten.count cUserA = 2 := by
  decide

/-- C9, amended.  `getTweetsFromResponse` attaches the batch's entire
`users` list unchanged to every output tweet (in JS the same array
object, shared by reference) — there is no per-`authorId` resolution
step — and it preserves the response's tweet payloads and their order;
only `media` is filtered per tweet. -/
theorem claim_C9_amended (response : Tweets) :
    (∀ t ∈ getTweetsFromResponse response,
      t.includes.users = response.includes.users) ∧
    (getTweetsFromResponse response).map Tweet.data = response.data := by
  constructor
  · intro t ht
    obtain ⟨a, _, rfl⟩ := List.mem_map.mp ht
    rfl
  · unfold getTweetsFromResponse
    rw [List.map_map]
    exact List.map_id response.data

theorem claim_C9_witness :
    cTweet2.includes.users = cRespDesc.includes.users :=
  (claim_C9_amended cRespDesc).1 cTweet2 (by decide)

/-- C10.  `parseUnsubscribeMailTo` maps the with-query address to its
recipient and subject, defaults the subject to `Unsubscribe` when no
query is present, raises the validation error for every address without
an `@`, and `sendUnsubscribeEmail` catches that error and returns
`false`. -/
theorem claim_C10 :
    parseUnsubscribeMailTo "list@example.com?subject=Stop" =
      Except.ok { toAddr := "list@example.com", subject := "Stop" } ∧
    parseUnsubscribeMailTo "list@example.com" =
      Except.ok { toAddr := "list@example.com", subject := "Unsubscribe" } ∧
    (∀ s : String, '@' ∉ s.data →
      parseUnsubscribeMailTo s =
        Except.error ("Invalid unsubscribe email address: " ++ s)) ∧
    (∀ (s newsletterEmail : String) (send : EmailPayload → Except String Bool),
      '@' ∉ s.data → sendUnsubscribeEmail s newsletterEmail send = false) := by
  refine ⟨rfl, rfl, parseUnsubscribeMailTo_error_of_noAt, ?_⟩
  intro s newsletterEmail send hs
  unfold sendUnsubscribeEmail
  rw [parseUnsubscribeMailTo_error_of_noAt s hs]

theorem claim_C10_witness :
    parseUnsubscribeMailTo "listexample.com" =
      Except.error ("Invalid unsubscribe email address: " ++ "listexample.com") ∧
    sendUnsubscribeEmail "listexample.com" "news@omnivore.app" cSendEmail = false :=
  ⟨claim_C10.2.2.1 "listexample.com" (by decide),
   claim_C10.2.2.2 "listexample.com" "news@omnivore.app" cSendEmail (by decide)⟩

/-- C1, counterexample.  The claim says the reconciled thread is always
sorted ascending by `created_at` on both paths.  The scrape path
performs no sorting: with the scraped ids in newest-first DOM order and
the bulk response in the same order, `getOldTweets` returns the tweets
newest first, which is not ascending. -/
theorem claim_C1_counterexample :
    (getOldTweets (some "tok") cNet1 cPageOk "1" "alice").2 =
      Except.ok [cTweet2, cTweet1] ∧
    ¬ sortedByCreatedAsc [cTweet2, cTweet1] := by
  refine ⟨rfl, ?_⟩
  unfold sortedByCreatedAsc
  decide

/-- C1, amended.  On the recency path the code only reverses: whenever
the raw response arrives newest-first with pairwise distinct ids (the
search endpoint's documented order), the reconciled thread is sorted
ascending by `created_at` with no duplicate ids.  The scrape path
performs no reordering and no deduplication: with ids scraped and a
token present, its result is exactly the bulk response's tweets in
response order. -/
theorem claim_C1_amended :
    (∀ thread : Tweets,
      thread.data.Pairwise (fun a b => createdAtLe b a = true) →
      (thread.data.map TweetData.id).Nodup →
      sortedByCreatedAsc (recentTweetsResult thread) ∧
        threadIdsNodup (recentTweetsResult thread)) ∧
    (∀ response : Tweets,
      (getTweetsFromResponse response).map Tweet.data = response.data) ∧
    (∀ (tok : String) (net : Net) (pageResult : Except String (List TimeNode))
        (conversationId username : String),
      (getTweetIds pageResult conversationId username).2 ≠ [] →
      (getOldTweets (some tok) net pageResult conversationId username).2 =
        Except.ok (getTweetsFromResponse (net.tweetsByIdsResponse
          (getTweetIds pageResult conversationId username).2))) := by
  refine ⟨?_, ?_, ?_⟩
  · intro thread hdesc hnodup
    unfold recentTweetsResult
    by_cases h0 : thread.meta.result_count = 0
    · rw [if_pos h0]
      exact ⟨List.Pairwise.nil, List.Pairwise.nil⟩
    · rw [if_neg h0]
      constructor
      · unfold sortedByCreatedAsc
        rw [List.pairwise_reverse]
        unfold getTweetsFromResponse
        rw [List.pairwise_map]
        exact hdesc
      · unfold threadIdsNodup
        rw [List.map_reverse, List.nodup_reverse]
        unfold getTweetsFromResponse
        rw [List.map_map]
        exact hnodup
  · intro response
    unfold getTweetsFromResponse
    rw [List.map_map]
    exact List.map_id response.data
  · intro tok net pageResult conversationId username hne
    have hbool : (getTweetIds pageResult conversationId username).2.isEmpty = false := by
      cases hl : (getTweetIds pageResult conversationId username).2 with
      | nil => exact absurd hl hne
      | cons a l => rfl
    simp [getOldTweets, getTweetsByIds, hbool]

theorem claim_C1_witness :
    (sortedByCreatedAsc (recentTweetsResult cRespDesc) ∧
      threadIdsNodup (recentTweetsResult cRespDesc)) ∧
    (getOldTweets (some "tok") cNet1 cPageOk "1" "alice").2 =
      Except.ok (getTweetsFromResponse
        (cNet1.tweetsByIdsResponse ["2", "1"])) :=
  ⟨claim_C1_amended.1 cRespDesc (by decide) (by decide),
   claim_C1_amended.2.2 "tok" cNet1 cPageOk "1" "alice" (by decide)⟩

end Omnivore
